import Mathlib

/-!
Verification of the crypto-history ingestion core against its specification.

The definitions below are shallow embeddings of the Python sources:
machine integers and epoch-second timestamps become Int, Python floats on
the data path become Rat, raised exceptions become Except errors, and the
stateful streaming loops become explicit step functions over their cursor
state.  Each definition's doc comment names the source function it embeds.
-/

set_option maxRecDepth 8000

namespace CryptoHistory

/-! ## Backfill engine
Embedding of the streaming loop shared by
src/src/exchanges/coinbase/ohlcv_history.py (OHLCV_History.fetch, lines
184-220) and src/src/coinbase_candle_history.py
(CoinbaseCandleHistory.fetch, lines 201-243).  The two revisions have the
same loop body; the per-request transport is abstracted as the
FetchResult the loop receives from fetch_timeframe.
-/

/-- One OHLCV row as returned by the exchange REST endpoint: the source
indexes candle[0] for the epoch-second timestamp and carries five further
numeric fields (low, high, open, close, volume). -/
structure Candle where
  t : Int
  lo : Rat
  hi : Rat
  op : Rat
  cl : Rat
  vol : Rat
  deriving DecidableEq

/-- The string tags fetch_timeframe can return instead of a data dict
(ohlcv_history.py lines 92-130). -/
inductive RespTag where
  | notFound
  | rateLimited
  | serverError
  | apiFailure
  | timeoutError
  | noData
  deriving DecidableEq

/-- The value of fetch_timeframe as consumed by the loop: either the data
dict (a symbol together with the candle rows, in the exact order the
exchange sent them) or one of the tag strings. -/
inductive FetchResult where
  | ok (symbol : String) (data : List Candle)
  | err (tag : RespTag)
  deriving DecidableEq

/-- A batch as yielded by fetch: the dict returned by fetch_timeframe,
passed through unchanged. -/
structure Batch where
  symbol : String
  data : List Candle
  deriving DecidableEq

/-- Python max over a list of ints.  The empty case is unreachable in the
loop (it is guarded by the emptiness check on fetched_timestamps); the
value returned for it is irrelevant. -/
def pyListMax : List Int → Int
  | [] => 0
  | x :: xs => xs.foldl max x

/-- One iteration of the backfill while-loop, given the current cursor
(last_fetched, in epoch seconds), the granularity in seconds, and the
fetch_timeframe result.  Returns the cursor after the iteration and the
batch yielded by it, if any.

Faithful to ohlcv_history.py lines 185-212 / coinbase_candle_history.py
lines 202-235: every non-dict result (all six tag strings) is caught by
the isinstance check and advances the cursor by one granularity; the
later branch testing for api_failure or timeout_error (which would
advance by MAX_CANDLES seconds) is unreachable, because every string
result has already been consumed by the isinstance branch.  On a data
dict, the cursor moves to max(fetched_timestamps), with a forced
+granularity only when that maximum equals the current cursor, and the
dict is yielded as is. -/
def fetchStep (lastFetched granularity : Int) (result : FetchResult) :
    Int × Option Batch :=
  match result with
  | .err _ => (lastFetched + granularity, none)
  | .ok symbol data =>
    let fetchedTimestamps := data.map Candle.t
    if fetchedTimestamps.isEmpty then
      (lastFetched + granularity, none)
    else
      let newLastFetched := pyListMax fetchedTimestamps
      let newLastFetched :=
        if newLastFetched = lastFetched then newLastFetched + granularity
        else newLastFetched
      (newLastFetched, some ⟨symbol, data⟩)

/-- The backfill while-loop: runs fetchStep over the successive
fetch_timeframe results while last_fetched has not passed end_date,
collecting the yielded batches.  inCurrentMonth models the
current-calendar-month check on the updated cursor that terminates the
symbol after its batch is yielded (ohlcv_history.py lines 214-218). -/
def fetchLoop (endDate granularity : Int) (inCurrentMonth : Int → Bool) :
    Int → List FetchResult → List Batch
  | _, [] => []
  | lastFetched, result :: rest =>
    if lastFetched ≤ endDate then
      match fetchStep lastFetched granularity result with
      | (lf, none) => fetchLoop endDate granularity inCurrentMonth lf rest
      | (lf, some b) =>
        if inCurrentMonth lf then [b]
        else b :: fetchLoop endDate granularity inCurrentMonth lf rest
    else []

/-! ## First-occurrence bisection
Embedding of binary_search_first_occurrence_async
(src/src/utils/algorithms/binary_search.py, lines 40-75).  The condition
coroutine is modelled as a pure Bool-valued function; the ValueError
raised when start exceeds end becomes an Except error; alongside the
returned value the embedding records the trace of probed midpoints, in
probe order. -/

/-- binary_search_first_occurrence_async.  Returns the found timestamp
(or the -1 sentinel) together with the list of every point at which the
condition was probed.  Python floor division start+end over 2 is
Int.fdiv.  On condition success the search recurses on the left half up
to middle - 1, on failure on the right half from middle + 1; recursion
is bounded by max_depth. -/
def binarySearchFirstOccurrenceAsync (condition : Int → Bool) :
    Int → Int → Nat → Except Unit (Int × List Int)
  | s, e, 0 =>
    if s > e then .error ()
    else if condition s then .ok (s, [s]) else .ok (-1, [s])
  | s, e, d + 1 =>
    if s > e then .error ()
    else if s = e then (if condition s then .ok (s, [s]) else .ok (-1, [s]))
    else
      if condition ((s + e).fdiv 2) then
        (binarySearchFirstOccurrenceAsync condition s ((s + e).fdiv 2 - 1) d).map
          (fun r => (r.1, (s + e).fdiv 2 :: r.2))
      else
        (binarySearchFirstOccurrenceAsync condition ((s + e).fdiv 2 + 1) e d).map
          (fun r => (r.1, (s + e).fdiv 2 :: r.2))

/-! ## Helper lemmas for the bisection -/

theorem fdiv_two_mid_bounds {s e : Int} (h : s ≤ e) :
    s ≤ (s + e).fdiv 2 ∧ (s + e).fdiv 2 ≤ e := by
  rw [Int.fdiv_eq_ediv _ (by norm_num)]
  omega

theorem bisect_base_ok {condition : Int → Bool} {s k : Int} {probes : List Int}
    (h : (if condition s then
            (.ok (s, [s]) : Except Unit (Int × List Int))
          else .ok (-1, [s])) = .ok (k, probes))
    (hk : k ≠ -1) :
    k = s ∧ probes = [s] ∧ condition s = true := by
  by_cases hc : condition s = true
  · simp [hc] at h
    exact ⟨h.1.symm, h.2.symm, hc⟩
  · simp [hc] at h
    exact absurd h.1.symm hk

/-- Range bound on the returned value: a non-sentinel result lies in the
searched interval. -/
theorem bisect_bounds {condition : Int → Bool} :
    ∀ (d : Nat) (s e k : Int) (probes : List Int),
      binarySearchFirstOccurrenceAsync condition s e d = .ok (k, probes) →
      k ≠ -1 → s ≤ k ∧ k ≤ e := by
  intro d
  induction d with
  | zero =>
    intro s e k probes h hk
    rw [binarySearchFirstOccurrenceAsync] at h
    split at h
    · exact absurd h (by simp)
    · rename_i hse
      obtain ⟨hks, -, -⟩ := bisect_base_ok h hk
      subst hks
      omega
  | succ d ih =>
    intro s e k probes h hk
    rw [binarySearchFirstOccurrenceAsync] at h
    split at h
    · exact absurd h (by simp)
    · rename_i hse
      split at h
      · rename_i heq
        obtain ⟨hks, -, -⟩ := bisect_base_ok h hk
        subst hks
        omega
      · rename_i hne
        have hmid := fdiv_two_mid_bounds (show s ≤ e by omega)
        split at h
        · rcases hrec : binarySearchFirstOccurrenceAsync condition s
              ((s + e).fdiv 2 - 1) d with err | pr
          · rw [hrec] at h
            exact absurd h (by simp [Except.map])
          · rw [hrec] at h
            simp [Except.map] at h
            obtain ⟨hk1, -⟩ := h
            have := ih s ((s + e).fdiv 2 - 1) pr.1 pr.2 (by rw [hrec])
              (by rw [hk1]; exact hk)
            omega
        · rcases hrec : binarySearchFirstOccurrenceAsync condition
              ((s + e).fdiv 2 + 1) e d with err | pr
          · rw [hrec] at h
            exact absurd h (by simp [Except.map])
          · rw [hrec] at h
            simp [Except.map] at h
            obtain ⟨hk1, -⟩ := h
            have := ih ((s + e).fdiv 2 + 1) e pr.1 pr.2 (by rw [hrec])
              (by rw [hk1]; exact hk)
            omega

/-- C6: if the first-occurrence bisection returns k different from the -1
sentinel, then the condition holds at k, and no point probed during the
search that is smaller than k satisfied the condition. -/
theorem c6_bisection_soundness (condition : Int → Bool) :
    ∀ (d : Nat) (s e k : Int) (probes : List Int),
      binarySearchFirstOccurrenceAsync condition s e d = .ok (k, probes) →
      k ≠ -1 →
      condition k = true ∧ ∀ p ∈ probes, p < k → condition p = false := by
  intro d
  induction d with
  | zero =>
    intro s e k probes h hk
    rw [binarySearchFirstOccurrenceAsync] at h
    split at h
    · exact absurd h (by simp)
    · obtain ⟨hks, hps, hc⟩ := bisect_base_ok h hk
      subst hks
      subst hps
      refine ⟨hc, ?_⟩
      intro p hp hpk
      simp at hp
      omega
  | succ d ih =>
    intro s e k probes h hk
    rw [binarySearchFirstOccurrenceAsync] at h
    split at h
    · exact absurd h (by simp)
    · rename_i hse
      split at h
      · obtain ⟨hks, hps, hc⟩ := bisect_base_ok h hk
        subst hks
        subst hps
        refine ⟨hc, ?_⟩
        intro p hp hpk
        simp at hp
        omega
      · rename_i hne
        split at h
        · rename_i hcm
          rcases hrec : binarySearchFirstOccurrenceAsync condition s
              ((s + e).fdiv 2 - 1) d with err | pr
          · rw [hrec] at h
            exact absurd h (by simp [Except.map])
          · rw [hrec] at h
            simp [Except.map] at h
            obtain ⟨hk1, hp1⟩ := h
            have hkne : pr.1 ≠ -1 := by rw [hk1]; exact hk
            have hbd := bisect_bounds d s ((s + e).fdiv 2 - 1) pr.1 pr.2
              (by rw [hrec]) hkne
            have hmain := ih s ((s + e).fdiv 2 - 1) pr.1 pr.2 (by rw [hrec]) hkne
            subst hk1
            refine ⟨hmain.1, ?_⟩
            intro p hp hpk
            rw [← hp1] at hp
            rcases List.mem_cons.mp hp with hpm | hpm
            · subst hpm
              omega
            · exact hmain.2 p hpm hpk
        · rename_i hcm
          rcases hrec : binarySearchFirstOccurrenceAsync condition
              ((s + e).fdiv 2 + 1) e d with err | pr
          · rw [hrec] at h
            exact absurd h (by simp [Except.map])
          · rw [hrec] at h
            simp [Except.map] at h
            obtain ⟨hk1, hp1⟩ := h
            have hkne : pr.1 ≠ -1 := by rw [hk1]; exact hk
            have hmain := ih ((s + e).fdiv 2 + 1) e pr.1 pr.2 (by rw [hrec]) hkne
            subst hk1
            refine ⟨hmain.1, ?_⟩
            intro p hp hpk
            rw [← hp1] at hp
            rcases List.mem_cons.mp hp with hpm | hpm
            · subst hpm
              simpa using hcm
            · exact hmain.2 p hpm hpk

/-- Concrete condition for exercising the bisection: true from 3 on. -/
def c6cond (n : Int) : Bool := decide (3 ≤ n)

/-- Witness for C6: the soundness theorem applied to a concrete run.  On
the range 0..10 with depth 2 the search probes 5, 2 and 3 and returns 3,
so the condition holds at 3 and fails at the probed 2. -/
theorem c6_bisection_soundness_witness :
    c6cond 3 = true ∧ c6cond 2 = false :=
  ⟨(c6_bisection_soundness c6cond 2 0 10 3 [5, 2, 3] rfl (by decide)).1,
   (c6_bisection_soundness c6cond 2 0 10 3 [5, 2, 3] rfl (by decide)).2
     2 (by decide) (by decide)⟩

/-! ## Backfill claims -/

/-- C1 counterexample: at cursor 1000 with granularity 60, a rate_limited
response moves the cursor to 1060, so the iteration does not leave the
cursor unchanged and the next request does not cover the same window. -/
theorem c1_counterexample :
    (fetchStep 1000 60 (.err .rateLimited)).1 = 1060 ∧ (1060 : Int) ≠ 1000 :=
  ⟨rfl, by decide⟩

/-- C1 (amended): a rate_limited or server_error response is caught by the
not-a-dict branch like every other tag, and the iteration advances the
cursor by exactly one granularity without yielding; the engine then
requests the next window, not the same one. -/
theorem c1_amended_rate_limit_advances (lastFetched granularity : Int) :
    fetchStep lastFetched granularity (.err .rateLimited) =
      (lastFetched + granularity, none) ∧
    fetchStep lastFetched granularity (.err .serverError) =
      (lastFetched + granularity, none) :=
  ⟨rfl, rfl⟩

/-- Shape of a yielded batch: fetchStep yields exactly when the response
is a data dict with at least one row, and the yielded batch is that dict
unchanged. -/
theorem fetchStep_yield_shape {lastFetched granularity : Int}
    {result : FetchResult} {b : Batch}
    (h : (fetchStep lastFetched granularity result).2 = some b) :
    ∃ symbol data, result = .ok symbol data ∧ b = ⟨symbol, data⟩ ∧ data ≠ [] := by
  cases result with
  | err t => simp [fetchStep] at h
  | ok symbol data =>
    cases data with
    | nil => simp [fetchStep] at h
    | cons c cs =>
      refine ⟨symbol, c :: cs, rfl, ?_, by simp⟩
      simp only [fetchStep, List.map_cons, List.isEmpty_cons] at h
      split at h <;> simp_all

/-- Product identifier used in the C2 counterexample. -/
def c2symbol : String := "BTC-USD"

/-- C2 counterexample: a response whose rows arrive newest-first (the
exchange convention) is yielded exactly as received, so the emitted
batch's timestamps 200, 100 are not strictly increasing. -/
theorem c2_counterexample :
    ((fetchStep 0 60 (.ok c2symbol
        [⟨200, 1, 1, 1, 1, 1⟩, ⟨100, 1, 1, 1, 1, 1⟩])).2.map
      (fun b => b.data.map Candle.t)) = some [200, 100] ∧
    ¬ List.Pairwise (fun a b : Int => a < b) [200, 100] :=
  ⟨rfl, by decide⟩

/-- C2 (amended): every batch emitted by the backfill loop has a
non-empty data list, and the step yields the response rows exactly as
received from the exchange, without sorting them; ascending order of the
emitted timestamps therefore holds only if the exchange already returned
them ascending. -/
theorem c2_amended_nonempty_unsorted :
    (∀ (endDate granularity : Int) (inCurrentMonth : Int → Bool)
        (lastFetched : Int) (results : List FetchResult) (b : Batch),
      b ∈ fetchLoop endDate granularity inCurrentMonth lastFetched results →
      b.data ≠ []) ∧
    (∀ (lastFetched granularity : Int) (symbol : String) (data : List Candle)
        (b : Batch),
      (fetchStep lastFetched granularity (.ok symbol data)).2 = some b →
      b.symbol = symbol ∧ b.data = data) := by
  constructor
  · intro endDate granularity inCurrentMonth lastFetched results
    induction results generalizing lastFetched with
    | nil =>
      intro b hb
      simp [fetchLoop] at hb
    | cons r rest ih =>
      intro b hb
      rw [fetchLoop] at hb
      split at hb
      · split at hb
        · exact ih _ b hb
        · rename_i lf b0 hstep
          split at hb
          · simp at hb
            obtain ⟨s0, d0, hr0, hb0eq, hne⟩ := fetchStep_yield_shape
              (show (fetchStep lastFetched granularity r).2 = some b0 by
                rw [hstep])
            rw [hb, hb0eq]
            exact hne
          · rcases List.mem_cons.mp hb with hb0 | hbr
            · obtain ⟨s0, d0, hr0, hb0eq, hne⟩ := fetchStep_yield_shape
                (show (fetchStep lastFetched granularity r).2 = some b0 by
                  rw [hstep])
              rw [hb0, hb0eq]
              exact hne
            · exact ih _ b hbr
      · simp at hb
  · intro lastFetched granularity symbol data b h
    obtain ⟨s, d, hr, hb, -⟩ := fetchStep_yield_shape h
    obtain ⟨hs, hd⟩ := FetchResult.ok.injEq .. ▸ hr
    rw [hb]
    exact ⟨hs.symm, hd.symm⟩

/-- Symbol used in the C2 amended witness. -/
def c2wsymbol : String := "ETH-USD"

/-- Witness for C2 (amended): applied to a one-response run that yields a
single one-row batch. -/
theorem c2_amended_nonempty_unsorted_witness :
    (Batch.mk c2wsymbol [⟨100, 1, 1, 1, 1, 1⟩]).data ≠ [] :=
  c2_amended_nonempty_unsorted.1 1000000 60 (fun _ => false) 0
    [.ok c2wsymbol [⟨100, 1, 1, 1, 1, 1⟩]]
    (Batch.mk c2wsymbol [⟨100, 1, 1, 1, 1, 1⟩]) (by decide)

/-- C5 counterexample: at cursor 1000, a data response whose single row
has timestamp 500 moves the cursor back to 500: the cursor decreases
across that iteration. -/
theorem c5_counterexample :
    (fetchStep 1000 60 (.ok c2wsymbol [⟨500, 1, 1, 1, 1, 1⟩])).1 = 500 ∧
    (500 : Int) < 1000 :=
  ⟨rfl, by decide⟩

/-- C5 (amended): the cursor strictly increases on every iteration whose
response is a tag, an empty data dict, or a data dict whose maximum
returned timestamp is at least the current cursor; monotonicity can fail
only on a data response whose timestamps all lie strictly before the
cursor. -/
theorem c5_amended_cursor_monotone (lastFetched granularity : Int)
    (result : FetchResult) (hg : 0 < granularity)
    (h : ∀ symbol data, result = .ok symbol data →
      data = [] ∨ lastFetched ≤ pyListMax (data.map Candle.t)) :
    lastFetched < (fetchStep lastFetched granularity result).1 := by
  cases result with
  | err t => simp [fetchStep]; omega
  | ok symbol data =>
    rcases h symbol data rfl with hemp | hle
    · subst hemp
      simp [fetchStep]
      omega
    · cases data with
      | nil =>
        simp [fetchStep]
        omega
      | cons c cs =>
        simp only [fetchStep, List.map_cons, List.isEmpty_cons]
        split
        · simp_all
        · rename_i hmax
          split
          · rename_i heq
            simp only []
            omega
          · rename_i hne
            simp only []
            simp only [List.map_cons] at hle
            omega

/-- Witness for C5 (amended): a no_data tag response at cursor 0 with
granularity 60 strictly advances the cursor. -/
theorem c5_amended_cursor_monotone_witness :
    (0 : Int) < (fetchStep 0 60 (.err .noData)).1 :=
  c5_amended_cursor_monotone 0 60 (.err .noData) (by decide)
    (fun symbol data h => by cases h)

/-! ## Columnar store and compactor
Embedding of OHLCV_Database._compress in
src/src/utils/exchange/database/ohlcv_database.py (lines 94-135) and of
the older revision in src/src/utils/exchange/database/ohlcv.py (lines
44-58).  The scratch CSV and the merged parquet partition are modelled
as row lists; the pandas frame operations used by the source
(read_csv, sort_values by timestamp, drop_duplicates on the timestamp
column keeping the first occurrence, concat) are modelled below, with
the errors pandas raises surfaced as Except errors. -/

/-- One stored OHLCV row: the epoch-second timestamp column used for
sorting and deduplication plus the five numeric columns. -/
structure OhlcvRow where
  timestamp : Int
  op : Rat
  hi : Rat
  lo : Rat
  cl : Rat
  vol : Rat
  deriving DecidableEq

/-- Errors raised by the pandas calls in _compress: EmptyDataError from
read_csv on a zero-byte file, KeyError from a timestamp column lookup on
a frame that has no column of that name. -/
inductive PdError where
  | emptyData
  | keyError
  deriving DecidableEq

/-- pandas.read_csv with explicit column names (ohlcv_database.py line
116): a zero-byte scratch file raises EmptyDataError; otherwise every
row is data. -/
def readCsvNamed (rows : List OhlcvRow) : Except PdError (List OhlcvRow) :=
  if rows.isEmpty then .error .emptyData else .ok rows

/-- Stable insertion by timestamp, ascending. -/
def insertByTimestamp (r : OhlcvRow) : List OhlcvRow → List OhlcvRow
  | [] => [r]
  | x :: xs =>
    if r.timestamp < x.timestamp then r :: x :: xs
    else x :: insertByTimestamp r xs

/-- DataFrame.sort_values by the timestamp column, ascending. -/
def sortByTimestamp (rows : List OhlcvRow) : List OhlcvRow :=
  rows.foldr insertByTimestamp []

/-- Worker for drop_duplicates: drop every row whose timestamp was
already seen, scanning left to right. -/
def dropDupSeen : List Int → List OhlcvRow → List OhlcvRow
  | _, [] => []
  | seen, r :: rs =>
    if r.timestamp ∈ seen then dropDupSeen seen rs
    else r :: dropDupSeen (r.timestamp :: seen) rs

/-- DataFrame.drop_duplicates on the timestamp column, keeping the first
occurrence. -/
def dropDuplicateTimestamps (rows : List OhlcvRow) : List OhlcvRow :=
  dropDupSeen [] rows

/-- OHLCV_Database._compress, ohlcv_database.py lines 94-135, acting on
the scratch rows and the merged partition (none when no parquet file
exists yet).  On success it returns the new partition contents and the
new scratch contents (the CSV is truncated to empty).  The scratch frame
is sorted then deduplicated (lines 118-119); when a partition exists the
two frames are concatenated, deduplicated and re-sorted (lines 126-128);
the result is written back and the CSV cleared.  An empty scratch file
makes the read_csv call raise before anything is written. -/
def compressMerge (scratch : List OhlcvRow) (partition : Option (List OhlcvRow)) :
    Except PdError (List OhlcvRow × List OhlcvRow) :=
  match readCsvNamed scratch with
  | .error e => .error e
  | .ok rows =>
    let tempDf := dropDuplicateTimestamps (sortByTimestamp rows)
    let mergedDf :=
      match partition with
      | some prevDf => sortByTimestamp (dropDuplicateTimestamps (prevDf ++ tempDf))
      | none => tempDf
    .ok (mergedDf, [])

/-- The older revision OHLCV_Database._compress in ohlcv.py (lines
44-58), under the pandas semantics of its read: read_csv is called
without explicit column names, so a zero-byte scratch raises
EmptyDataError, and otherwise the first data row is consumed as the
header row, leaving no column named timestamp, so the lookup on line 48
raises KeyError.  Either way the function raises before reaching its
concat-without-resort merge or writing the partition. -/
def compressMergeLegacy (scratch : List OhlcvRow)
    (_partition : Option (List OhlcvRow)) : Except PdError (List OhlcvRow) :=
  match scratch with
  | [] => .error .emptyData
  | _headerRow :: _rest => .error .keyError

/-! ## Helper lemmas for the compactor -/

theorem insertByTimestamp_perm (r : OhlcvRow) (l : List OhlcvRow) :
    List.Perm (insertByTimestamp r l) (r :: l) := by
  induction l with
  | nil => rfl
  | cons x xs ih =>
    rw [insertByTimestamp]
    split
    · rfl
    · exact ((ih.cons x).trans (List.Perm.swap r x xs))

theorem sortByTimestamp_perm (l : List OhlcvRow) :
    List.Perm (sortByTimestamp l) l := by
  induction l with
  | nil => rfl
  | cons x xs ih =>
    exact (insertByTimestamp_perm x (sortByTimestamp xs)).trans (ih.cons x)

theorem insertByTimestamp_sorted {l : List OhlcvRow}
    (h : l.Pairwise (fun a b => a.timestamp ≤ b.timestamp)) (r : OhlcvRow) :
    (insertByTimestamp r l).Pairwise (fun a b => a.timestamp ≤ b.timestamp) := by
  induction l with
  | nil => simp [insertByTimestamp]
  | cons x xs ih =>
    rw [insertByTimestamp]
    rcases List.pairwise_cons.mp h with ⟨hx, hxs⟩
    split
    · rename_i hlt
      refine List.pairwise_cons.mpr ⟨?_, h⟩
      intro y hy
      rcases List.mem_cons.mp hy with hy | hy
      · subst hy
        omega
      · have := hx y hy
        omega
    · rename_i hge
      refine List.pairwise_cons.mpr ⟨?_, ih hxs⟩
      intro y hy
      have hy2 := (insertByTimestamp_perm r xs).mem_iff.mp hy
      rcases List.mem_cons.mp hy2 with hy2 | hy2
      · subst hy2
        omega
      · exact hx y hy2

theorem sortByTimestamp_sorted (l : List OhlcvRow) :
    (sortByTimestamp l).Pairwise (fun a b => a.timestamp ≤ b.timestamp) := by
  induction l with
  | nil => simp [sortByTimestamp]
  | cons x xs ih => exact insertByTimestamp_sorted ih x

theorem dropDupSeen_sublist (seen : List Int) (l : List OhlcvRow) :
    List.Sublist (dropDupSeen seen l) l := by
  induction l generalizing seen with
  | nil => simp [dropDupSeen]
  | cons r rs ih =>
    rw [dropDupSeen]
    split
    · exact (ih seen).trans (List.sublist_cons_self r rs)
    · exact List.Sublist.cons₂ r (ih (r.timestamp :: seen))

theorem dropDupSeen_nodup (l : List OhlcvRow) :
    ∀ seen : List Int,
      ((dropDupSeen seen l).map OhlcvRow.timestamp).Nodup ∧
      ∀ x ∈ dropDupSeen seen l, x.timestamp ∉ seen := by
  induction l with
  | nil => simp [dropDupSeen]
  | cons r rs ih =>
    intro seen
    rw [dropDupSeen]
    split
    · rename_i hmem
      refine ⟨(ih seen).1, ?_⟩
      exact (ih seen).2
    · rename_i hmem
      obtain ⟨ihnd, ihseen⟩ := ih (r.timestamp :: seen)
      constructor
      · rw [List.map_cons]
        refine List.nodup_cons.mpr ⟨?_, ihnd⟩
        intro hc
        obtain ⟨x, hx, hxt⟩ := List.mem_map.mp hc
        have := ihseen x hx
        rw [hxt] at this
        exact this (List.mem_cons_self _ _)
      · intro x hx
        rcases List.mem_cons.mp hx with hx | hx
        · subst hx
          exact hmem
        · intro hc
          exact ihseen x hx (List.mem_cons_of_mem _ hc)

theorem dropDuplicateTimestamps_nodup (l : List OhlcvRow) :
    ((dropDuplicateTimestamps l).map OhlcvRow.timestamp).Nodup :=
  (dropDupSeen_nodup l []).1

theorem pairwise_lt_of_le_of_ne {l : List Int}
    (h1 : l.Pairwise (fun a b => a ≤ b)) (h2 : l.Nodup) :
    l.Pairwise (fun a b : Int => a < b) := by
  induction l with
  | nil => exact List.Pairwise.nil
  | cons x xs ih =>
    rcases List.pairwise_cons.mp h1 with ⟨hx, hxs⟩
    rcases List.nodup_cons.mp h2 with ⟨hnx, hnxs⟩
    refine List.pairwise_cons.mpr ⟨?_, ih hxs hnxs⟩
    intro y hy
    rcases eq_or_lt_of_le (hx y hy) with heq | hlt
    · exact absurd (heq ▸ hy) hnx
    · exact hlt

/-- The timestamps of a sorted-then-deduplicated or
deduplicated-then-sorted frame are strictly increasing. -/
theorem strict_of_sorted_nodup {l : List OhlcvRow}
    (hs : l.Pairwise (fun a b => a.timestamp ≤ b.timestamp))
    (hn : (l.map OhlcvRow.timestamp).Nodup) :
    (l.map OhlcvRow.timestamp).Pairwise (fun a b : Int => a < b) := by
  refine pairwise_lt_of_le_of_ne ?_ hn
  exact (List.pairwise_map).mpr hs

/-- C7 counterexample: compacting a product whose scratch CSV is empty
does not complete without error: the read_csv call raises EmptyDataError
(modelled as the error result), so no merged output is produced. -/
theorem c7_counterexample :
    compressMerge [] (some [⟨100, 1, 1, 1, 1, 1⟩]) = .error .emptyData ∧
    ¬ ∃ out, compressMerge [] (some [⟨100, 1, 1, 1, 1, 1⟩]) = .ok out :=
  ⟨rfl, fun ⟨_, hout⟩ => Except.noConfusion hout⟩

/-- C7 (amended): compacting a product whose scratch CSV is empty raises
pandas EmptyDataError at the read_csv call, before the merged partition
is read or written; the merged partition is therefore left unchanged,
but the compaction aborts instead of completing without error. -/
theorem c7_amended_empty_scratch_raises (partition : Option (List OhlcvRow)) :
    compressMerge [] partition = .error .emptyData :=
  rfl

/-- C8: every compaction that completes leaves the merged partition
sorted by timestamp in strictly increasing order, hence with no
duplicate timestamps, both when no prior partition existed and when the
scratch rows were concatenated with an existing partition; the older
ohlcv.py revision of _compress never completes at all (its read consumes
the first data row as a header and the timestamp lookup raises), so it
writes no partition. -/
theorem c8_compaction_sorted_dedup :
    (∀ (scratch : List OhlcvRow) (partition : Option (List OhlcvRow))
        (merged newScratch : List OhlcvRow),
      compressMerge scratch partition = .ok (merged, newScratch) →
      (merged.map OhlcvRow.timestamp).Pairwise (fun a b : Int => a < b)) ∧
    (∀ (scratch : List OhlcvRow) (partition : Option (List OhlcvRow)),
      ∃ e, compressMergeLegacy scratch partition = .error e) := by
  constructor
  · intro scratch partition merged newScratch h
    rw [compressMerge] at h
    rcases hread : readCsvNamed scratch with e | rows
    · rw [hread] at h
      exact absurd h (by simp)
    · rw [hread] at h
      simp only [Except.ok.injEq, Prod.mk.injEq] at h
      obtain ⟨hm, -⟩ := h
      subst hm
      cases partition with
      | none =>
        simp only []
        refine strict_of_sorted_nodup ?_ ?_
        · exact List.Pairwise.sublist (dropDupSeen_sublist [] _)
            (sortByTimestamp_sorted rows)
        · exact dropDuplicateTimestamps_nodup _
      | some prevDf =>
        simp only []
        refine strict_of_sorted_nodup (sortByTimestamp_sorted _) ?_
        have hperm := (sortByTimestamp_perm
          (dropDuplicateTimestamps (prevDf ++ dropDuplicateTimestamps
            (sortByTimestamp rows)))).map OhlcvRow.timestamp
        exact hperm.nodup_iff.mpr (dropDuplicateTimestamps_nodup _)
  · intro scratch partition
    cases scratch with
    | nil => exact ⟨.emptyData, rfl⟩
    | cons r rs => exact ⟨.keyError, rfl⟩

/-- Witness for C8: the theorem applied to a concrete compaction of a
one-row scratch against a one-row existing partition; the resulting
merged timestamps 100, 200 are strictly increasing. -/
theorem c8_compaction_sorted_dedup_witness :
    (([⟨100, 1, 1, 1, 1, 1⟩, ⟨200, 2, 2, 2, 2, 2⟩] :
        List OhlcvRow).map OhlcvRow.timestamp).Pairwise
      (fun a b : Int => a < b) :=
  c8_compaction_sorted_dedup.1 [⟨100, 1, 1, 1, 1, 1⟩]
    (some [⟨200, 2, 2, 2, 2, 2⟩])
    [⟨100, 1, 1, 1, 1, 1⟩, ⟨200, 2, 2, 2, 2, 2⟩] [] rfl

/-! ## Live order-book maintainer
Embedding of OrderBook._update_order_book and OrderBook.snapshots
(src/src/exchanges/coinbase/order_book.py, lines 87-178).  Price levels
are (price, quantity) pairs of Rat; the Python heapq operations used by
the source are modelled exactly, including their behaviour on lists that
are not valid min-heaps, since the source stores the bid side sorted
descending.  Each while loop is run on fuel that provably dominates its
iteration count, and the fuel-exhausted branch returns the same value as
the loop exit branch, so the embedding agrees with the unbounded loop. -/

/-- Python tuple comparison on (price, quantity) pairs: lexicographic. -/
def pyTupleLt (a b : Rat × Rat) : Bool :=
  decide (a.1 < b.1) || (decide (a.1 = b.1) && decide (a.2 < b.2))

/-- The while loop of heapq._siftdown: bubble newitem up from pos toward
startpos, moving larger parents down, until the parent is not larger.
Each iteration moves pos to (pos - 1) / 2 < pos, so fuel equal to the
starting pos dominates the iteration count; at fuel 0 the guard
startpos < pos is already false, so that branch equals the exit branch. -/
def siftdownLoop (newitem : Rat × Rat) (startpos : Nat) :
    Array (Rat × Rat) → Nat → Nat → Array (Rat × Rat) × Nat
  | heap, pos, 0 => (heap, pos)
  | heap, pos, fuel + 1 =>
    if startpos < pos then
      let parentpos := (pos - 1) / 2
      let parent := heap.getD parentpos (0, 0)
      if pyTupleLt newitem parent then
        siftdownLoop newitem startpos (heap.setD pos parent) parentpos fuel
      else (heap, pos)
    else (heap, pos)

/-- heapq._siftdown(heap, startpos, pos). -/
def siftdown (heap : Array (Rat × Rat)) (startpos pos : Nat) :
    Array (Rat × Rat) :=
  let newitem := heap.getD pos (0, 0)
  let hp := siftdownLoop newitem startpos heap pos pos
  hp.1.setD hp.2 newitem

/-- The while loop of heapq._siftup: walk pos down to a leaf, at each
level moving the smaller child up.  pos strictly increases every
iteration and stays below the array size, so fuel equal to the array
size dominates the iteration count; when fuel runs out the loop guard is
false and the branch equals the exit branch. -/
def siftupLoop : Array (Rat × Rat) → Nat → Nat → Array (Rat × Rat) × Nat
  | heap, pos, 0 => (heap, pos)
  | heap, pos, fuel + 1 =>
    if 2 * pos + 1 < heap.size then
      let childpos :=
        if 2 * pos + 2 < heap.size ∧
            pyTupleLt (heap.getD (2 * pos + 1) (0, 0))
              (heap.getD (2 * pos + 2) (0, 0)) = false
        then 2 * pos + 2
        else 2 * pos + 1
      siftupLoop (heap.setD pos (heap.getD childpos (0, 0))) childpos fuel
    else (heap, pos)

/-- heapq._siftup(heap, pos): after the walk down, store newitem at the
reached leaf and sift it back down toward pos. -/
def siftup (heap : Array (Rat × Rat)) (pos : Nat) : Array (Rat × Rat) :=
  let newitem := heap.getD pos (0, 0)
  let hp := siftupLoop heap pos heap.size
  siftdown (hp.1.setD hp.2 newitem) pos hp.2

/-- heapq.heappush: append the item and sift it down from the last
index toward the root. -/
def heappush (heap : List (Rat × Rat)) (item : Rat × Rat) :
    List (Rat × Rat) :=
  let a := heap.toArray.push item
  (siftdown a 0 (a.size - 1)).toList

/-- heapq.heappop with the returned item discarded, as in the source
(line 173): remove the last element; if the heap is still non-empty, put
the last element at the root and sift it up.  The empty case would raise
IndexError in Python; it is unreachable here because the source only
pops when the length exceeds the depth. -/
def heappop (heap : List (Rat × Rat)) : List (Rat × Rat) :=
  match heap.getLast? with
  | none => []
  | some lastelt =>
    let a := heap.toArray.pop
    if a.size = 0 then []
    else (siftup (a.setD 0 lastelt) 0).toList

/-- Stable descending insertion by price. -/
def insertDescByPrice (x : Rat × Rat) : List (Rat × Rat) → List (Rat × Rat)
  | [] => [x]
  | y :: ys => if y.1 ≤ x.1 then x :: y :: ys else y :: insertDescByPrice x ys

/-- heapq.nlargest(n, levels, key=price): documented as equivalent to
sorting by the key descending (stably) and taking the first n. -/
def nlargestByPrice (n : Nat) (l : List (Rat × Rat)) : List (Rat × Rat) :=
  (l.foldr insertDescByPrice []).take n

/-- Stable ascending insertion by price. -/
def insertAscByPrice (x : Rat × Rat) : List (Rat × Rat) → List (Rat × Rat)
  | [] => [x]
  | y :: ys => if x.1 ≤ y.1 then x :: y :: ys else y :: insertAscByPrice x ys

/-- heapq.nsmallest(n, levels, key=price): documented as equivalent to
sorting by the key ascending (stably) and taking the first n. -/
def nsmallestByPrice (n : Nat) (l : List (Rat × Rat)) : List (Rat × Rat) :=
  (l.foldr insertAscByPrice []).take n

/-- A side of the book. -/
inductive Side where
  | bid
  | ask
  deriving DecidableEq

/-- The for-loop with break in _update_order_book lines 164-167: replace
the first level whose price equals the updated price. -/
def replaceFirstPrice (price qty : Rat) :
    List (Rat × Rat) → List (Rat × Rat)
  | [] => []
  | (p, q) :: rest =>
    if p = price then (price, qty) :: rest
    else (p, q) :: replaceFirstPrice price qty rest

/-- True when some level has the given price (the for-else in the
source finds a match exactly when this holds). -/
def containsPrice (price : Rat) (l : List (Rat × Rat)) : Bool :=
  l.any (fun pq => pq.1 = price)

/-- OrderBook._update_order_book restricted to the side being updated
(order_book.py lines 137-178).  The local variable heap aliases the
stored side list at entry.  In the quantity-zero branch the source
stores a filtered copy into the dict, but the trailing truncation (lines
175-178) reads the stale heap alias and overwrites the dict entry with
the top-depth levels of the unfiltered list, so the deletion never
survives.  In the other branch the alias itself is mutated (replace or
heappush, then heappop when the length exceeds depth) before the same
truncation runs.  The stored result is nlargest for bids and nsmallest
for asks. -/
def updateOrderBookSide (depth : Nat) (side : Side)
    (sideList : List (Rat × Rat)) (price qty : Rat) : List (Rat × Rat) :=
  let heap :=
    if qty = 0 then
      sideList
    else
      let h :=
        if containsPrice price sideList then
          replaceFirstPrice price qty sideList
        else heappush sideList (price, qty)
      if depth < h.length then heappop h else h
  match side with
  | .bid => nlargestByPrice depth heap
  | .ask => nsmallestByPrice depth heap

/-- The two ladders of one product: the value of the inner dict
self._best_prices[product]. -/
structure BookSides where
  bids : List (Rat × Rat)
  asks : List (Rat × Rat)
  deriving DecidableEq

/-- One update applied to a product's inner dict. -/
def applySideUpdate (depth : Nat) (sides : BookSides) (side : Side)
    (price qty : Rat) : BookSides :=
  match side with
  | .bid => { sides with bids := updateOrderBookSide depth .bid sides.bids price qty }
  | .ask => { sides with asks := updateOrderBookSide depth .ask sides.asks price qty }

/-- The live book state: the heap of inner dicts, keyed by product.  A
product's inner dict object is created once and then only mutated in
place (every write is an assignment to one of its two keys), so a
reference to it can be modelled as the product key resolved against the
live state at read time. -/
def lookupBook (live : List (String × BookSides)) (p : String) : BookSides :=
  match live.find? (fun x => x.1 == p) with
  | some x => x.2
  | none => ⟨[], []⟩

/-- _update_order_book at the book level: mutate the product's inner
dict in place, creating it first when the product is unknown (lines
156-157). -/
def updateLiveBooks (depth : Nat) (live : List (String × BookSides))
    (p : String) (side : Side) (price qty : Rat) :
    List (String × BookSides) :=
  if live.any (fun x => x.1 == p) then
    live.map (fun x =>
      if x.1 == p then (x.1, applySideUpdate depth x.2 side price qty) else x)
  else
    live ++ [(p, applySideUpdate depth ⟨[], []⟩ side price qty)]

/-- The dict yielded by OrderBook.snapshots (lines 106-111): a fresh
outer dict whose products entry maps each tracked product to the live
inner dict itself, not to a copy.  The embedding records the timestamp
and the product references; the referenced contents are read through
the live state at observation time. -/
structure SnapshotRef where
  timestamp : String
  productRefs : List String
  deriving DecidableEq

/-- Reading a yielded snapshot: each product reference dereferences the
current live book state. -/
def snapshotContents (live : List (String × BookSides))
    (snap : SnapshotRef) : List (String × BookSides) :=
  snap.productRefs.map (fun p => (p, lookupBook live p))

/-! ## Order-book claims -/

/-- C3: evaluation of _update_order_book at the failing inputs.  First:
a quantity-zero update for price 100 on a bid side holding (100, 5)
leaves the level in place, because the filtered list written by the
deletion branch is overwritten by the truncation that reads the stale
heap alias; the claim (and the method's own docstring) requires the
level to be removed.  Second: inserting price 30 into a full ask side
holding prices 10 and 20 with depth 2 yields levels 20 and 30, because
heappop evicts the lowest ask before truncation; the claim requires the
two lowest prices present, 10 and 20, to be kept. -/
theorem c3_truncation_eval :
    updateOrderBookSide 2 .bid [(100, 5)] 100 0 = [(100, 5)] ∧
    updateOrderBookSide 2 .ask [(10, 1), (20, 1)] 30 1 = [(20, 1), (30, 1)] :=
  ⟨rfl, rfl⟩

/-- Product identifier used in the C4 evaluation. -/
def c4product : String := "BTC-USD"

/-- Timestamp string attached to the yielded snapshot in the C4
evaluation. -/
def c4timestamp : String := "2026-02-03T04:05:06+00:00"

/-- Live books before the update in the C4 evaluation. -/
def c4live0 : List (String × BookSides) := [(c4product, ⟨[(100, 5)], []⟩)]

/-- The snapshot yielded from c4live0. -/
def c4snap : SnapshotRef := ⟨c4timestamp, [c4product]⟩

/-- Live books after a later bid update at price 101. -/
def c4live1 : List (String × BookSides) :=
  updateLiveBooks 2 c4live0 c4product .bid 101 2

/-- C4: evaluation at the failing input.  A snapshot yielded while the
BTC-USD bids were [(100, 5)] reads back with bids [(101, 2), (100, 5)]
after a later delta message, because the yielded dict shares the live
inner per-product dict: the snapshot is not a value copy and its
contents change after it was yielded. -/
theorem c4_snapshot_aliasing_eval :
    snapshotContents c4live0 c4snap = [(c4product, ⟨[(100, 5)], []⟩)] ∧
    snapshotContents c4live1 c4snap =
      [(c4product, ⟨[(101, 2), (100, 5)], []⟩)] ∧
    snapshotContents c4live1 c4snap ≠ snapshotContents c4live0 c4snap :=
  ⟨rfl, rfl, by decide⟩

/-! ## End-date normalization in fetch
Embedding of the prelude of the fetch coroutines: ohlcv_history.py lines
144-157 and coinbase_candle_history.py lines 161-172.  Instants are
epoch seconds; a string argument carries the instant its ISO text
denotes, but the source compares the raw argument against a datetime
before any parsing. -/

/-- A Python value passed as end_date: absent, an ISO-8601 string, or a
timezone-aware datetime. -/
inductive PyDateArg where
  | absent
  | str (denoted : Int)
  | dt (t : Int)
  deriving DecidableEq

/-- The Python exception surfaced by the embedding. -/
inductive PyExn where
  | typeError
  deriving DecidableEq

/-- The end-date normalization at the top of fetch.  The source runs
if end_date is None or end_date > now, then elif isinstance(end_date,
str) parses the string.  When end_date is a string the comparison with
the datetime now raises TypeError before the elif can run, so every
string argument raises; a datetime later than now is clamped to now, an
earlier one is kept; an absent argument becomes now. -/
def normalizeEndDate (endDate : PyDateArg) (now : Int) : Except PyExn Int :=
  match endDate with
  | .absent => .ok now
  | .str _ => .error .typeError
  | .dt t => if t > now then .ok now else .ok t

/-- C9: evaluation at the failing input.  With the wall clock at epoch
1760227200, an end_date passed as the string denoting epoch 1893456000
(a future instant) raises TypeError at the end_date > now comparison
instead of being clamped; an absent end date and a future datetime end
date are both clamped to now as the claim says. -/
theorem c9_end_date_eval :
    normalizeEndDate (.str 1893456000) 1760227200 = .error .typeError ∧
    normalizeEndDate (.dt 1893456000) 1760227200 = .ok 1760227200 ∧
    normalizeEndDate .absent 1760227200 = .ok 1760227200 :=
  ⟨rfl, rfl, rfl⟩

/-! ## Snapshot cadence
Embedding of the OrderBook.snapshots loop (order_book.py lines 100-111)
as the sequence of wall-clock instants at which it yields.  Time is Rat
seconds (frequency may be fractional); the only passage of time in the
cooperative model is the sleep of frequency seconds at the top of each
loop iteration, and the loop guard reads the clock before sleeping.
The fuel argument bounds how many iterations are observed (an external
cancellation); the loop itself is infinite when until is absent. -/

/-- The instants at which snapshots(until) yields, starting from wall
clock now: at each iteration the guard (until absent, or now before
until) is checked, then the loop sleeps frequency seconds, then yields
at the advanced clock. -/
def snapshotYieldTimes (frequency : Rat) (untilT : Option Rat) :
    Rat → Nat → List Rat
  | _, 0 => []
  | now, fuel + 1 =>
    if (match untilT with
        | none => true
        | some u => decide (now < u)) then
      (now + frequency) ::
        snapshotYieldTimes frequency untilT (now + frequency) fuel
    else []

/-- C10: the snapshots generator sleeps before each yield and never
after.  First part: a call whose until bound is at or before the current
wall clock yields nothing and terminates.  Second part: the i-th yielded
snapshot (counting from zero, for any until argument) is produced at
now + (i + 1) * frequency, so the first snapshot appears only after one
full initial delay of frequency seconds. -/
theorem c10_sleep_before_yield :
    (∀ (frequency u now : Rat) (fuel : Nat), u ≤ now →
      snapshotYieldTimes frequency (some u) now fuel = []) ∧
    (∀ (frequency : Rat) (untilT : Option Rat) (now : Rat) (fuel : Nat)
        (i : Nat) (t : Rat),
      (snapshotYieldTimes frequency untilT now fuel).get? i = some t →
      t = now + (i + 1 : Nat) * frequency) := by
  constructor
  · intro frequency u now fuel h
    cases fuel with
    | zero => rfl
    | succ fuel =>
      have hc : ¬ now < u := not_lt.mpr h
      simp [snapshotYieldTimes, hc]
  · intro frequency untilT now fuel
    induction fuel generalizing now with
    | zero =>
      intro i t h
      simp [snapshotYieldTimes] at h
    | succ fuel ih =>
      intro i t h
      simp only [snapshotYieldTimes] at h
      split at h
      · cases i with
        | zero =>
          simp at h
          rw [← h]
          push_cast
          ring
        | succ i =>
          rw [List.get?_cons_succ] at h
          have := ih (now + frequency) i t h
          rw [this]
          push_cast
          ring
      · simp at h

/-- Witness for C10: a snapshots call with until equal to the current
clock yields nothing, and a three-iteration run with frequency 5 first
yields at clock 5. -/
theorem c10_sleep_before_yield_witness :
    snapshotYieldTimes 5 (some 0) 0 3 = [] ∧
    (0 + 5 : Rat) = 0 + (0 + 1 : Nat) * 5 :=
  ⟨c10_sleep_before_yield.1 5 0 0 3 (by norm_num),
   c10_sleep_before_yield.2 5 (some 100) 0 3 0 (0 + 5) rfl⟩

end CryptoHistory
